import Mathlib

/-!
Verification of the sparkx heavy-ion analysis core against its specification.

The development shallowly embeds the relevant parts of the repository:
the `Particle` record (`src/sparkx/Particle.py`), the reaction-plane flow
estimator (`src/sparkx/flow/ReactionPlaneFlow.py`) and the JETSCAPE loader
(`src/sparkx/Loader/JetscapeLoader.py`).

Modelling conventions:
* Python floats are modelled by exact rationals `ℚ`; the transcendental
  library calls (`np.sqrt`, `math.atan2`, `np.log`, `np.exp` on the unit
  circle) are fields of a `MathOps` parameter record, since their values
  never decide the control flow verified here.
* Python complex values are modelled by `CF`, a pair of rationals plus an
  `isNaN` flag that records a non-finite numpy result (the only source of
  non-finite values on the verified paths is the `0/0` division arising at
  `pt = 0`, which numpy evaluates to `nan+nanj` without raising).
* Python exceptions are modelled with `Except PyError`; `None` fields of a
  particle are `Option.none`.
-/

/-- Python exception kinds raised by the embedded code. -/
inductive PyError where
  | valueError (msg : String)
  | typeError (msg : String)
  | indexError (msg : String)
  | zeroDivisionError
  deriving DecidableEq, Repr

/-- A Python complex number as produced by the flow code: real part,
imaginary part, and a flag recording that a non-finite numpy value
(`nan`) has been produced. -/
structure CF where
  re : ℚ
  im : ℚ
  isNaN : Bool
  deriving DecidableEq, Repr

instance {ε α : Type} [DecidableEq ε] [DecidableEq α] :
    DecidableEq (Except ε α) := fun x y =>
  match x, y with
  | .ok a, .ok b =>
    if h : a = b then isTrue (by rw [h]) else isFalse (by simp [h])
  | .error e, .error f =>
    if h : e = f then isTrue (by rw [h]) else isFalse (by simp [h])
  | .ok _, .error _ => isFalse (by simp)
  | .error _, .ok _ => isFalse (by simp)

/-- `0. + 0.j` -/
def czero : CF := ⟨0, 0, false⟩

/-- Complex addition; a `nan` operand makes the sum `nan`. -/
def CF.add (a b : CF) : CF := ⟨a.re + b.re, a.im + b.im, a.isNaN || b.isNaN⟩

/-- Multiplication of a complex value by a real scalar (`weight * z`,
`pt**n * z`); any float times `nan` is `nan`. -/
def CF.smul (w : ℚ) (z : CF) : CF := ⟨w * z.re, w * z.im, z.isNaN⟩

/-- numpy complex-scalar division by a float.  For a zero divisor numpy
produces a non-finite value (on the verified path the numerator is zero as
well, so the result is `nan+nanj`) and does not raise. -/
def CF.divNp (z : CF) (d : ℚ) : CF :=
  if d = 0 then ⟨0, 0, true⟩ else ⟨z.re / d, z.im / d, z.isNaN⟩

/-- Python complex division by a float known to be nonzero (the zero case
raises `ZeroDivisionError` and is modelled at the call site). -/
def CF.divPy (z : CF) (d : ℚ) : CF := ⟨z.re / d, z.im / d, z.isNaN⟩

/-- The transcendental library functions used by the embedded code,
kept abstract: the verified control flow never depends on their values. -/
structure MathOps where
  sqrt : ℚ → ℚ
  atan2 : ℚ → ℚ → ℚ
  log : ℚ → ℚ
  cos : ℚ → ℚ
  sin : ℚ → ℚ

/-- `np.exp(1j * x)` (Euler form, `cos x + i sin x`). -/
def expi (ops : MathOps) (x : ℚ) : CF := ⟨ops.cos x, ops.sin x, false⟩

/-- The result of the external PDG lookup `PDGID(code)`
(collaborator interface; see spec section 6). -/
structure PDGInfo where
  is_valid : Bool
  charge : ℚ
  J : ℚ
  j_spin : ℚ
  is_meson : Bool
  is_baryon : Bool
  is_hadron : Bool
  has_strange : Bool
  has_charm : Bool
  has_bottom : Bool
  has_top : Bool

/-- The `Particle` record: every attribute initialized to `None` by
`Particle.__init__` is an `Option` here.  `pdg_valid_` is the
`None`/`True`/`False` validity flag. -/
structure Particle where
  t_ : Option ℚ := none
  x_ : Option ℚ := none
  y_ : Option ℚ := none
  z_ : Option ℚ := none
  mass_ : Option ℚ := none
  E_ : Option ℚ := none
  px_ : Option ℚ := none
  py_ : Option ℚ := none
  pz_ : Option ℚ := none
  pdg_ : Option ℚ := none
  pdg_valid_ : Option Bool := none
  ID_ : Option ℚ := none
  charge_ : Option ℚ := none
  ncoll_ : Option ℚ := none
  form_time_ : Option ℚ := none
  xsecfac_ : Option ℚ := none
  proc_id_origin_ : Option ℚ := none
  proc_type_origin_ : Option ℚ := none
  t_last_coll_ : Option ℚ := none
  pdg_mother1_ : Option ℚ := none
  pdg_mother2_ : Option ℚ := none
  baryon_number_ : Option ℚ := none
  strangeness_ : Option ℚ := none
  weight_ : Option ℚ := none
  status_ : Option ℚ := none
  deriving DecidableEq, Repr

/-- A property getter of the pattern
`if self.attr_ == None: raise ValueError(msg) else: return self.attr_`. -/
def getRequired (v : Option ℚ) (msg : String) : Except PyError ℚ :=
  match v with
  | none => .error (.valueError msg)
  | some x => .ok x

/-- `Particle.pt_abs`: `np.sqrt(self.px**2. + self.py**2.)` through the
raising `px`/`py` property getters. -/
def ptAbsE (ops : MathOps) (p : Particle) : Except PyError ℚ := do
  let px ← getRequired p.px_ "px not set"
  let py ← getRequired p.py_ "py not set"
  pure (ops.sqrt (px ^ 2 + py ^ 2))

/-- The small-magnitude threshold `1e-6` of `Particle.phi`. -/
def eps6 : ℚ := 1 / 1000000

/-- `Particle.phi`: zero when both momentum components are below the
threshold, `math.atan2(py, px)` otherwise. -/
def phiE (ops : MathOps) (p : Particle) : Except PyError ℚ := do
  let px ← getRequired p.px_ "px not set"
  let py ← getRequired p.py_ "py not set"
  pure (if |px| < eps6 ∧ |py| < eps6 then 0 else ops.atan2 py px)

/-- The value of `pt_abs` when `px`/`py` are set (pure form). -/
def ptVal (ops : MathOps) (p : Particle) : ℚ :=
  ops.sqrt ((p.px_.getD 0) ^ 2 + (p.py_.getD 0) ^ 2)

/-- The value of `phi` when `px`/`py` are set (pure form). -/
def phiVal (ops : MathOps) (p : Particle) : ℚ :=
  if |p.px_.getD 0| < eps6 ∧ |p.py_.getD 0| < eps6 then 0
  else ops.atan2 (p.py_.getD 0) (p.px_.getD 0)

/-- The per-particle term of `ReactionPlaneFlow`:
`weight * (pt**n * np.exp(1j*n*phi) / pt**n)`. -/
def flowTerm (ops : MathOps) (n : ℕ) (w pt phi : ℚ) : CF :=
  CF.smul w (CF.divNp (CF.smul (pt ^ n) (expi ops (n * phi))) (pt ^ n))

/-- The body of the inner particle loop shared by
`ReactionPlaneFlow.integrated_flow` (lines 86-91) and
`ReactionPlaneFlow.__differential_flow_calculation` (lines 152-157):
accumulates `flow_event` and `number_particles`.
The source line `weight = 1. if particle.weight is None else particle.weight`
reads the raising `weight` property, so the `is None` branch is
unreachable: an unset weight raises `ValueError("weight not set")`. -/
def particleLoop (ops : MathOps) (n : ℕ) :
    List Particle → CF → ℚ → Except PyError (CF × ℚ)
  | [], flowEvent, np => .ok (flowEvent, np)
  | p :: ps, flowEvent, np => do
    let w ← getRequired p.weight_ "weight not set"
    let pt ← ptAbsE ops p
    let phi ← phiE ops p
    particleLoop ops n ps (flowEvent.add (flowTerm ops n w pt phi)) (np + w)

/-- The event loop of `integrated_flow` (lines 84-95): per event the inner
loop runs with `flow_event = 0j` while `number_particles` carries over; then
`flow_event_average` is either extended or reset to `0j` depending on the
running `number_particles`. -/
def integratedEventLoop (ops : MathOps) (n : ℕ) :
    List (List Particle) → CF → ℚ → Except PyError (CF × ℚ)
  | [], avg, np => .ok (avg, np)
  | ev :: evs, avg, np => do
    let (flowEvent, np2) ← particleLoop ops n ev czero np
    if np2 ≠ 0 then integratedEventLoop ops n evs (avg.add flowEvent) np2
    else integratedEventLoop ops n evs czero np2

/-- `ReactionPlaneFlow.integrated_flow`.  The trailing
`flow_event_average /= number_particles` is a Python complex division:
with `number_particles == 0.` it raises `ZeroDivisionError` (for a zero
total weight the average at this point is always the plain Python complex
`0.+0.j`, never a numpy value). -/
def integratedFlow (ops : MathOps) (n : ℕ) (particleData : List (List Particle)) :
    Except PyError CF := do
  let (avg, np) ← integratedEventLoop ops n particleData czero 0
  if np = 0 then .error .zeroDivisionError
  else pure (avg.divPy np)

/-- The threshold `1e-10` guarding the rapidity denominators. -/
def eps10 : ℚ := 1 / 10000000000

/-- `Particle.momentum_rapidity_Y`:
`0.5 * np.log((E + pz) / denominator)` with the small-denominator guard. -/
def rapidityE (ops : MathOps) (p : Particle) : Except PyError ℚ := do
  let e ← getRequired p.E_ "E not set"
  let pz ← getRequired p.pz_ "pz not set"
  let d := if |e - pz| < eps10 then (e - pz) + eps10 else e - pz
  pure (1 / 2 * ops.log ((e + pz) / d))

/-- `Particle.p_abs`: `np.sqrt(px**2 + py**2 + pz**2)`. -/
def pAbsE (ops : MathOps) (p : Particle) : Except PyError ℚ := do
  let px ← getRequired p.px_ "px not set"
  let py ← getRequired p.py_ "py not set"
  let pz ← getRequired p.pz_ "pz not set"
  pure (ops.sqrt (px ^ 2 + py ^ 2 + pz ^ 2))

/-- `Particle.pseudorapidity`, with the same denominator guard as the
momentum rapidity but using `p_abs`. -/
def pseudorapidityE (ops : MathOps) (p : Particle) : Except PyError ℚ := do
  let pa ← pAbsE ops p
  let pz ← getRequired p.pz_ "pz not set"
  let d := if |pa - pz| < eps10 then (pa - pz) + eps10 else pa - pz
  pure (1 / 2 * ops.log ((pa + pz) / d))

/-- The observable dispatch of `differential_flow` (lines 130-137):
`val = 0.` then the `if`/`elif` chain on `flow_as_function_of`; the final
`pure 0` branch is unreachable behind the enum membership check. -/
def observableVal (ops : MathOps) (fvar : String) (p : Particle) :
    Except PyError ℚ :=
  if fvar = "pt" then ptAbsE ops p
  else if fvar = "rapidity" then rapidityE ops p
  else if fvar = "pseudorapidity" then pseudorapidityE ops p
  else pure 0

/-- The innermost loop of `differential_flow` (lines 129-139): collect the
particles of one event whose observable lies in `[lo, hi)`, in file order,
by appending to `particles_event`. -/
def binEventLoop (ops : MathOps) (fvar : String) (lo hi : ℚ) :
    List Particle → List Particle → Except PyError (List Particle)
  | [], acc => .ok acc
  | p :: ps, acc => do
    let v ← observableVal ops fvar p
    if lo ≤ v ∧ v < hi then binEventLoop ops fvar lo hi ps (acc ++ [p])
    else binEventLoop ops fvar lo hi ps acc

/-- The event loop of `differential_flow` for one bin: `events_bin`,
one (filtered) particle list per event, in event order. -/
def binEventsLoop (ops : MathOps) (fvar : String) (lo hi : ℚ) :
    List (List Particle) → Except PyError (List (List Particle))
  | [] => .ok []
  | ev :: evs => do
    let pe ← binEventLoop ops fvar lo hi ev []
    let rest ← binEventsLoop ops fvar lo hi evs
    pure (pe :: rest)

/-- The bin loop of `differential_flow`: `for bin in range(len(bins)-1)`,
each bin bounded by `bins[bin]` and `bins[bin+1]`. -/
def binsLoop (ops : MathOps) (fvar : String) (events : List (List Particle))
    (bins : List ℚ) : List ℕ → Except PyError (List (List (List Particle)))
  | [] => .ok []
  | k :: ks => do
    let eb ← binEventsLoop ops fvar (bins.getD k 0) (bins.getD (k + 1) 0) events
    let rest ← binsLoop ops fvar events bins ks
    pure (eb :: rest)

/-- The complete bin partition built by `differential_flow`
(lines 124-141): `particles_bin[bin][event]` lists the particles of
`particle_data[event]` whose observable lies in `[bins[bin], bins[bin+1])`. -/
def binParticles (ops : MathOps) (fvar : String) (events : List (List Particle))
    (bins : List ℚ) : Except PyError (List (List (List Particle))) :=
  binsLoop ops fvar events bins (List.range (bins.length - 1))

/-- The event loop of `__differential_flow_calculation` (lines 150-158):
like the loop of `integrated_flow` but `flow_event_average += flow_event`
is unconditional. -/
def diffEventLoop (ops : MathOps) (n : ℕ) :
    List (List Particle) → CF → ℚ → Except PyError (CF × ℚ)
  | [], avg, np => .ok (avg, np)
  | ev :: evs, avg, np => do
    let (flowEvent, np2) ← particleLoop ops n ev czero np
    diffEventLoop ops n evs (avg.add flowEvent) np2

/-- One bin of `__differential_flow_calculation` (lines 148-163):
`number_particles` restarts at `0.` for the bin, and a zero weight total
yields `0.+0.j` instead of dividing. -/
def diffBinCalc (ops : MathOps) (n : ℕ) (evs : List (List Particle)) :
    Except PyError CF := do
  let (avg, np) ← diffEventLoop ops n evs czero 0
  if np ≠ 0 then pure (avg.divPy np) else pure czero

/-- `__differential_flow_calculation`: one complex value per bin,
in bin order. -/
def diffCalcLoop (ops : MathOps) (n : ℕ) :
    List (List (List Particle)) → Except PyError (List CF)
  | [] => .ok []
  | b :: bs => do
    let c ← diffBinCalc ops n b
    let rest ← diffCalcLoop ops n bs
    pure (c :: rest)

/-- `ReactionPlaneFlow.differential_flow`.  The `isinstance` checks on
`bins` and `flow_as_function_of` are discharged by typing; the enum
membership check on the variable raises `ValueError` (message abridged).
There is no validation of the bins sequence itself. -/
def differentialFlow (ops : MathOps) (n : ℕ) (events : List (List Particle))
    (bins : List ℚ) (fvar : String) : Except PyError (List CF) :=
  if fvar ∈ (["pt", "rapidity", "pseudorapidity"] : List String) then do
    let binned ← binParticles ops fvar events bins
    diffCalcLoop ops n binned
  else .error (.valueError "flow_as_function_of must be pt, rapidity or pseudorapidity")

/-- The reconciliation step at the end of `JetscapeLoader.set_particle_list`
(lines 216-232), deciding on the `events` option:
* no option: the number of materialized events must equal the indexed
  total, otherwise the loader raises its event-count-mismatch `IndexError`
  (message abridged; the spec calls this `EventCountMismatch`);
* `events = k`: metadata becomes the single row `k`, event count `1`
  (an out-of-range `k` raises `IndexError` on the numpy row access);
* `events = (a, b)`: metadata becomes the slice `[a : b+1]` of the indexed
  table and the event count becomes `b - a + 1`.
The metadata rows are opaque here (`α`). -/
def reconcileEvents {α : Type} (sel : Option (ℕ ⊕ ℕ × ℕ)) (plen : ℕ)
    (table : List α) (nEvents : ℕ) : Except PyError (List α × ℕ) :=
  match sel with
  | none =>
    if plen ≠ nEvents then
      .error (.indexError "Number of events in Jetscape file does not match the number of events specified by the comments in the Jetscape file!")
    else .ok (table, nEvents)
  | some (.inl k) =>
    match table.get? k with
    | some row => .ok ([row], 1)
    | none => .error (.indexError "index out of bounds")
  | some (.inr (a, b)) => .ok ((table.take (b + 1)).drop a, b - a + 1)

/-- Modelled from the spec: the `charged_particles` filter of the external
`Filter` module (not under `src/`); the spec describes the filter pipeline
as element-wise cut callables applied per event, the charged cut keeping
particles of nonzero electric charge. -/
def chargedParticlesFilter (events : List (List Particle)) :
    List (List Particle) :=
  events.map (fun ev => ev.filter (fun p => decide (p.charge_.getD 0 ≠ 0)))

/-- Modelled from the spec: the `pt_cut` filter of the external `Filter`
module (not under `src/`); an element-wise kinematic cut keeping particles
whose transverse momentum lies in the requested window. -/
def ptCutFilter (ops : MathOps) (cut : ℚ × ℚ) (events : List (List Particle)) :
    List (List Particle) :=
  events.map (fun ev =>
    ev.filter (fun p => decide (cut.1 ≤ ptVal ops p ∧ ptVal ops p < cut.2)))

/-- One entry of the `filters` mapping handled by
`JetscapeLoader.__apply_kwargs_filters` (lines 138-172); a Python `dict`
iterates its keys in insertion order, so the mapping is a list of entries.
Unknown keys raise `ValueError` before this point and are excluded by the
entry type. -/
inductive FilterEntry where
  | charged_particles (b : Bool)
  | uncharged_particles (b : Bool)
  | strange_particles (b : Bool)
  | particle_species (pdgs : List ℚ)
  | remove_particle_species (pdgs : List ℚ)
  | lower_event_energy_cut (cut : ℚ)
  | pt_cut (cut : ℚ × ℚ)
  | rapidity_cut (cut : ℚ × ℚ)
  | pseudorapidity_cut (cut : ℚ × ℚ)
  | spatial_rapidity_cut (cut : ℚ × ℚ)
  | multiplicity_cut (m : ℕ)
  | particle_status (s : List ℚ)

/-- The external filter callables other than the two modelled above
(collaborator contract `apply(event) -> event` of the spec). -/
structure FilterImpls where
  uncharged : List (List Particle) → List (List Particle)
  strange : List (List Particle) → List (List Particle)
  species : List ℚ → List (List Particle) → List (List Particle)
  removeSpecies : List ℚ → List (List Particle) → List (List Particle)
  lowerEventEnergy : ℚ → List (List Particle) → List (List Particle)
  rapidity : ℚ × ℚ → List (List Particle) → List (List Particle)
  pseudorapidity : ℚ × ℚ → List (List Particle) → List (List Particle)
  spatialRapidity : ℚ × ℚ → List (List Particle) → List (List Particle)
  multiplicity : ℕ → List (List Particle) → List (List Particle)
  statusFilter : List ℚ → List (List Particle) → List (List Particle)

/-- `JetscapeLoader.__apply_kwargs_filters`: fold the filter entries over
the event collection in mapping-iteration (= insertion) order; the boolean
entries are applied only when truthy. -/
def applyKwargsFilters (ops : MathOps) (impls : FilterImpls)
    (entries : List FilterEntry) (events : List (List Particle)) :
    List (List Particle) :=
  entries.foldl (fun evs e =>
    match e with
    | .charged_particles b => if b then chargedParticlesFilter evs else evs
    | .uncharged_particles b => if b then impls.uncharged evs else evs
    | .strange_particles b => if b then impls.strange evs else evs
    | .particle_species l => impls.species l evs
    | .remove_particle_species l => impls.removeSpecies l evs
    | .lower_event_energy_cut c => impls.lowerEventEnergy c evs
    | .pt_cut c => ptCutFilter ops c evs
    | .rapidity_cut c => impls.rapidity c evs
    | .pseudorapidity_cut c => impls.pseudorapidity c evs
    | .spatial_rapidity_cut c => impls.spatialRapidity c evs
    | .multiplicity_cut m => impls.multiplicity m evs
    | .particle_status s => impls.statusFilter s evs) events

/-- The token-collection loop of `JetscapeLoader.get_sigmaGen`
(lines 288-295): try `float(word)` on each whitespace token of the last
line, keep the successes, and stop after two.  The Python `float` parser
is the abstract parameter `parse`. -/
def collectTwoNumbers (parse : String → Option ℚ) :
    List String → List ℚ → List ℚ
  | [], numbers => numbers
  | w :: ws, numbers =>
    match parse w with
    | some x =>
      let numbers2 := numbers ++ [x]
      if numbers2.length = 2 then numbers2
      else collectTwoNumbers parse ws numbers2
    | none => collectTwoNumbers parse ws numbers

/-- `JetscapeLoader.get_sigmaGen` applied to the whitespace-split tokens of
the last line: return `(numbers[0], numbers[1])`; fewer than two parsed
floats raise `IndexError`. -/
def getSigmaGen (parse : String → Option ℚ) (words : List String) :
    Except PyError (ℚ × ℚ) :=
  let numbers := collectTwoNumbers parse words []
  match numbers.get? 0, numbers.get? 1 with
  | some a, some b => .ok (a, b)
  | _, _ => .error (.indexError "list index out of range")

/-- The attribute slots of `Particle.__initialize_from_array`. -/
inductive ParticleAttr where
  | t | x | y | z | mass | E | px | py | pz | pdg | ID | charge
  | ncoll | form_time | xsecfac | proc_id_origin | proc_type_origin
  | t_last_coll | pdg_mother1 | pdg_mother2 | baryon_number | strangeness
  | weight | statusA
  deriving DecidableEq, Repr

/-- `setattr(self, attribute, value)` (with `None` for a missing trailing
column). -/
def setAttr (p : Particle) (a : ParticleAttr) (v : Option ℚ) : Particle :=
  match a with
  | .t => { p with t_ := v }
  | .x => { p with x_ := v }
  | .y => { p with y_ := v }
  | .z => { p with z_ := v }
  | .mass => { p with mass_ := v }
  | .E => { p with E_ := v }
  | .px => { p with px_ := v }
  | .py => { p with py_ := v }
  | .pz => { p with pz_ := v }
  | .pdg => { p with pdg_ := v }
  | .ID => { p with ID_ := v }
  | .charge => { p with charge_ := v }
  | .ncoll => { p with ncoll_ := v }
  | .form_time => { p with form_time_ := v }
  | .xsecfac => { p with xsecfac_ := v }
  | .proc_id_origin => { p with proc_id_origin_ := v }
  | .proc_type_origin => { p with proc_type_origin_ := v }
  | .t_last_coll => { p with t_last_coll_ := v }
  | .pdg_mother1 => { p with pdg_mother1_ := v }
  | .pdg_mother2 => { p with pdg_mother2_ := v }
  | .baryon_number => { p with baryon_number_ := v }
  | .strangeness => { p with strangeness_ := v }
  | .weight => { p with weight_ := v }
  | .statusA => { p with status_ := v }

/-- The five input dialects. -/
inductive InputFormat where
  | Oscar2013 | Oscar2013Extended | Oscar2013Extended_IC
  | Oscar2013Extended_Photons | JETSCAPE
  deriving DecidableEq, Repr

/-- The `attribute_mapping` dictionaries of `__initialize_from_array`
(Particle.py lines 271-366), as insertion-ordered (attribute, column)
lists. -/
def attrMapping : InputFormat → List (ParticleAttr × ℕ)
  | .Oscar2013 =>
    [(.t, 0), (.x, 1), (.y, 2), (.z, 3), (.mass, 4), (.E, 5), (.px, 6),
     (.py, 7), (.pz, 8), (.pdg, 9), (.ID, 10), (.charge, 11)]
  | .Oscar2013Extended =>
    [(.t, 0), (.x, 1), (.y, 2), (.z, 3), (.mass, 4), (.E, 5), (.px, 6),
     (.py, 7), (.pz, 8), (.pdg, 9), (.ID, 10), (.charge, 11), (.ncoll, 12),
     (.form_time, 13), (.xsecfac, 14), (.proc_id_origin, 15),
     (.proc_type_origin, 16), (.t_last_coll, 17), (.pdg_mother1, 18),
     (.pdg_mother2, 19), (.baryon_number, 20), (.strangeness, 21)]
  | .Oscar2013Extended_IC =>
    [(.t, 0), (.x, 1), (.y, 2), (.z, 3), (.mass, 4), (.E, 5), (.px, 6),
     (.py, 7), (.pz, 8), (.pdg, 9), (.ID, 10), (.charge, 11), (.ncoll, 12),
     (.form_time, 13), (.xsecfac, 14), (.proc_id_origin, 15),
     (.proc_type_origin, 16), (.t_last_coll, 17), (.pdg_mother1, 18),
     (.pdg_mother2, 19), (.baryon_number, 20), (.strangeness, 21)]
  | .Oscar2013Extended_Photons =>
    [(.t, 0), (.x, 1), (.y, 2), (.z, 3), (.mass, 4), (.E, 5), (.px, 6),
     (.py, 7), (.pz, 8), (.pdg, 9), (.ID, 10), (.charge, 11), (.ncoll, 12),
     (.form_time, 13), (.xsecfac, 14), (.proc_id_origin, 15),
     (.proc_type_origin, 16), (.t_last_coll, 17), (.pdg_mother1, 18),
     (.pdg_mother2, 19), (.weight, 20)]
  | .JETSCAPE =>
    [(.ID, 0), (.pdg, 1), (.statusA, 2), (.E, 3), (.px, 4), (.py, 5), (.pz, 6)]

/-- `len(attribute_mapping[input_format])`: the declared column count. -/
def columnCount (fmt : InputFormat) : ℕ := (attrMapping fmt).length

/-- The length acceptance test of `__initialize_from_array`
(lines 368-370): exact column count, or for the two historical Extended
dialects up to two missing trailing columns. -/
def lengthAccepted (fmt : InputFormat) (len : ℕ) : Bool :=
  (len = columnCount fmt) ||
    ((fmt = InputFormat.Oscar2013Extended ∨ fmt = InputFormat.Oscar2013Extended_IC) ∧
      len ≤ columnCount fmt ∧ columnCount fmt - 2 ≤ len : Bool)

/-- `Particle.compute_mass_from_energy_momentum`: the energy-momentum
relation with a numerical floor. -/
def computeMassFromEnergyMomentum (ops : MathOps) (p : Particle) :
    Except PyError ℚ := do
  let e ← getRequired p.E_ "E not set"
  let pa ← pAbsE ops p
  pure (if |e ^ 2 - pa ^ 2| > eps6 ∧ e ^ 2 - pa ^ 2 > 0
        then ops.sqrt (e ^ 2 - pa ^ 2) else 0)

/-- `Particle.compute_charge_from_pdg`: `if not self.pdg_valid_: return
None` (falsy for both `None` and `False`), otherwise the PDG lookup of the
raising `pdg` property. -/
def computeChargeFromPdg (lookup : ℚ → PDGInfo) (p : Particle) :
    Except PyError (Option ℚ) :=
  match p.pdg_valid_ with
  | some true => do
    let c ← getRequired p.pdg_ "pdg not set"
    pure (some (lookup c).charge)
  | _ => pure none

/-- `Particle.__initialize_from_array` (lines 367-389) for the five
supported formats: validate the array length, assign each mapped attribute
(`None` when the column is missing), derive mass and charge for JETSCAPE —
note that the charge derivation runs *before* `pdg_valid_` is assigned on
line 385, so it always sees the falsy `None` — and finally evaluate PDG
validity via the external lookup. -/
def initializeFromArray (ops : MathOps) (lookup : ℚ → PDGInfo)
    (fmt : InputFormat) (arr : List ℚ) : Except PyError Particle :=
  if lengthAccepted fmt arr.length then do
    let p0 := (attrMapping fmt).foldl
      (fun p ai => setAttr p ai.1 (arr.get? ai.2)) {}
    let p1 ←
      if fmt = InputFormat.JETSCAPE then do
        let m ← computeMassFromEnergyMomentum ops p0
        let c ← computeChargeFromPdg lookup p0
        pure { p0 with mass_ := some m, charge_ := c }
      else pure p0
    match p1.pdg_ with
    | some code => pure { p1 with pdg_valid_ := some (lookup code).is_valid }
    | none => .error (.typeError "PDGID of None")
  else .error (.valueError "The input file is corrupted!")

/-- The `Particle.charge` property getter (lines 640-656): raises
`ValueError` when the stored charge is `None`. -/
def chargeGetter (p : Particle) : Except PyError ℚ :=
  getRequired p.charge_ "charge not set"

/-- `Particle.is_meson`. -/
def isMesonQ (lookup : ℚ → PDGInfo) (p : Particle) : Except PyError Bool :=
  match p.pdg_valid_ with
  | some true => do
    let c ← getRequired p.pdg_ "pdg not set"
    pure (lookup c).is_meson
  | _ => pure false

/-- `Particle.is_baryon`. -/
def isBaryonQ (lookup : ℚ → PDGInfo) (p : Particle) : Except PyError Bool :=
  match p.pdg_valid_ with
  | some true => do
    let c ← getRequired p.pdg_ "pdg not set"
    pure (lookup c).is_baryon
  | _ => pure false

/-- `Particle.is_hadron`. -/
def isHadronQ (lookup : ℚ → PDGInfo) (p : Particle) : Except PyError Bool :=
  match p.pdg_valid_ with
  | some true => do
    let c ← getRequired p.pdg_ "pdg not set"
    pure (lookup c).is_hadron
  | _ => pure false

/-- `Particle.is_strange`. -/
def isStrangeQ (lookup : ℚ → PDGInfo) (p : Particle) : Except PyError Bool :=
  match p.pdg_valid_ with
  | some true => do
    let c ← getRequired p.pdg_ "pdg not set"
    pure (lookup c).has_strange
  | _ => pure false

/-- `Particle.is_heavy_flavor`: charm, bottom or top content. -/
def isHeavyFlavorQ (lookup : ℚ → PDGInfo) (p : Particle) :
    Except PyError Bool :=
  match p.pdg_valid_ with
  | some true => do
    let c ← getRequired p.pdg_ "pdg not set"
    pure ((lookup c).has_charm || (lookup c).has_bottom || (lookup c).has_top)
  | _ => pure false

/-- `Particle.spin`: total spin `J`, `None` on an invalid PDG code. -/
def spinQ (lookup : ℚ → PDGInfo) (p : Particle) : Except PyError (Option ℚ) :=
  match p.pdg_valid_ with
  | some true => do
    let c ← getRequired p.pdg_ "pdg not set"
    pure (some (lookup c).J)
  | _ => pure none

/-- `Particle.spin_degeneracy`: `j_spin`, `None` on an invalid PDG code. -/
def spinDegeneracyQ (lookup : ℚ → PDGInfo) (p : Particle) :
    Except PyError (Option ℚ) :=
  match p.pdg_valid_ with
  | some true => do
    let c ← getRequired p.pdg_ "pdg not set"
    pure (some (lookup c).j_spin)
  | _ => pure none

/-- Spec-side definition (refinement target for the flat-accumulation
claim): the contribution `weight · exp(i·n·φ)` of one particle, the weight
defaulting to 1 when unset, φ the azimuthal angle of `Particle.phi`. -/
def specContribution (ops : MathOps) (n : ℕ) (p : Particle) : CF :=
  CF.smul (p.weight_.getD 1) (expi ops (n * phiVal ops p))

/-- Spec-side definition: the complex sum of contributions over a flat
particle list, accumulated left to right. -/
def specFlowSum (ops : MathOps) (n : ℕ) (ps : List Particle) : CF :=
  ps.foldl (fun a p => a.add (specContribution ops n p)) czero

/-- Spec-side definition: the scalar weight sum over a flat particle list
(weight defaulting to 1 when unset). -/
def specWeightSum (ps : List Particle) : ℚ :=
  ps.foldl (fun a p => a + p.weight_.getD 1) 0

/-- Spec-side definition: the integrated flow as specified — one flat
accumulation over all particles of all events, complex sum divided by
weight sum. -/
def specIntegratedFlow (ops : MathOps) (n : ℕ)
    (events : List (List Particle)) : CF :=
  (specFlowSum ops n events.flatten).divPy (specWeightSum events.flatten)

/-- Concrete transcendental stand-ins for evaluating witnesses. -/
def testOps : MathOps :=
  { sqrt := fun x => x, atan2 := fun _ _ => 0, log := fun _ => 0,
    cos := fun _ => 1, sin := fun _ => 0 }

/-- A particle with momentum set but no weight (as every JETSCAPE-read
particle: the JETSCAPE column map has no weight column). -/
def noWeightParticle : Particle := { px_ := some 1, py_ := some 0 }

/-- A particle at `pt = 0` with a set unit weight. -/
def ptZeroParticle : Particle :=
  { px_ := some 0, py_ := some 0, weight_ := some 1 }

/-- A PDG lookup on which every code is invalid. -/
def lookupInvalid : ℚ → PDGInfo :=
  fun _ => ⟨false, 0, 0, 0, false, false, false, false, false, false, false⟩

/-- A seven-column JETSCAPE data line (ID, PDG, status, E, px, py, pz). -/
def arrJ7 : List ℚ := [0, 9999, 11, 2, 1, 0, 1]

/-- A particle with momentum and a positive weight set, `pt` nonzero. -/
def goodParticle : Particle :=
  { px_ := some 1, py_ := some 0, weight_ := some 2 }

/-! ## Basic algebra of `CF` and unfolding lemmas -/

theorem CF.czero_add (z : CF) : czero.add z = z := by
  simp [czero, CF.add]

theorem CF.add_czero (z : CF) : z.add czero = z := by
  simp [czero, CF.add]

theorem CF.addAssoc (a b c : CF) : (a.add b).add c = a.add (b.add c) := by
  simp [CF.add, add_assoc, Bool.or_assoc]

theorem ok_bind {ε α β : Type} (a : α) (f : α → Except ε β) :
    (Except.ok a : Except ε α) >>= f = f a := rfl

theorem error_bind {ε α β : Type} (e : ε) (f : α → Except ε β) :
    (Except.error e : Except ε α) >>= f = .error e := rfl

theorem pure_eq_ok {ε α : Type} (a : α) : (pure a : Except ε α) = .ok a := rfl

/-- C2 (code_bug evaluation): with a zero total weight — an empty
ensemble, or an ensemble of only empty events — `integrated_flow` reaches
the unguarded `flow_event_average /= number_particles` with
`number_particles == 0.` and raises `ZeroDivisionError` instead of
returning the complex zero the spec demands. -/
theorem integrated_flow_zero_weight_division (ops : MathOps) (n : ℕ) :
    integratedFlow ops n [] = .error .zeroDivisionError ∧
    integratedFlow ops n [[]] = .error .zeroDivisionError ∧
    integratedFlow ops n [[], []] = .error .zeroDivisionError := by
  refine ⟨rfl, ?_, ?_⟩ <;>
    simp [integratedFlow, integratedEventLoop, particleLoop, ok_bind]

/-- C8 (counterexample): `differential_flow` accepts a bins argument that
is not strictly ordered (here `[3, 1]`) and an argument with fewer than
two entries (here `[5]`) without raising any error, returning one complex
zero per nominal bin — so the claimed `InvalidBins` validation does not
exist in the code. -/
theorem differential_flow_unordered_bins_no_error :
    differentialFlow testOps 2 [] [3, 1] "pt" = .ok [czero] ∧
    differentialFlow testOps 2 [] [5] "pt" = .ok [] := by
  constructor <;> rfl

/-- C8 (amended): `differential_flow` performs no validation of the bins
sequence: any bins list — unordered or with fewer than two entries — is
processed as given, producing `len(bins) - 1` bins (none for a short
list) with no error raised. -/
theorem differential_flow_no_bins_validation (ops : MathOps) (n : ℕ)
    (bins : List ℚ) :
    differentialFlow ops n [] bins "pt" =
      .ok (List.replicate (bins.length - 1) czero) := by
  have hbl : ∀ ks : List ℕ,
      binsLoop ops "pt" [] bins ks = .ok (ks.map fun _ => ([] : List (List Particle))) := by
    intro ks
    induction ks with
    | nil => rfl
    | cons k ks ih => simp [binsLoop, binEventsLoop, ih, ok_bind]
  have hdc : ∀ m : ℕ,
      diffCalcLoop ops n (List.replicate m ([] : List (List Particle))) =
        .ok (List.replicate m czero) := by
    intro m
    induction m with
    | zero => rfl
    | succ m ih =>
      simp only [List.replicate_succ, diffCalcLoop, diffBinCalc, diffEventLoop,
        ok_bind, ih]
      rfl
  have hmem : "pt" ∈ (["pt", "rapidity", "pseudorapidity"] : List String) := by decide
  simp only [differentialFlow, if_pos hmem, binParticles, hbl, ok_bind]
  rw [List.map_const', List.length_range, hdc]

/-- C9: a particle with `pt` exactly zero contributes `NaN` to the flow
sum — the retained `pt**n / pt**n` factor evaluates to the numpy `0/0`
division — in `integrated_flow` and in the per-bin accumulation of
`__differential_flow_calculation` alike, rather than acting as a weight-1
unit-magnitude contributor. -/
theorem flow_pt_zero_nan (ops : MathOps) (n : ℕ) (w : ℚ) (p : Particle)
    (hn : 1 ≤ n) (hs : ops.sqrt 0 = 0) (hw : w ≠ 0)
    (hpx : p.px_ = some 0) (hpy : p.py_ = some 0) (hwt : p.weight_ = some w) :
    (∃ z : CF, particleLoop ops n [p] czero 0 = .ok (z, w) ∧ z.isNaN = true) ∧
    (∃ z : CF, integratedFlow ops n [[p]] = .ok z ∧ z.isNaN = true) ∧
    (∃ z : CF, diffBinCalc ops n [[p]] = .ok z ∧ z.isNaN = true) := by
  have hzero : (0 : ℚ) ^ 2 + (0 : ℚ) ^ 2 = 0 := by norm_num
  have hterm : flowTerm ops n w (ops.sqrt ((0:ℚ) ^ 2 + (0:ℚ) ^ 2)) 0 = ⟨0, 0, true⟩ := by
    rw [hzero, hs]
    have hpow : (0 : ℚ) ^ n = 0 := zero_pow (by omega)
    simp [flowTerm, hpow, CF.divNp, CF.smul]
  have habs : |(0:ℚ)| < eps6 := by norm_num [eps6]
  have hloop : particleLoop ops n [p] czero 0 = .ok (⟨0, 0, true⟩, w) := by
    simp only [particleLoop, getRequired, hpx, hpy, hwt, ptAbsE, phiE, ok_bind,
      pure_eq_ok]
    simp only [habs, and_self, if_pos, hterm, zero_add, CF.czero_add]
  refine ⟨⟨⟨0, 0, true⟩, hloop, rfl⟩, ?_, ?_⟩
  · refine ⟨CF.divPy ⟨0, 0, true⟩ w, ?_, rfl⟩
    simp [integratedFlow, integratedEventLoop, hloop, ok_bind, pure_eq_ok, hw,
      CF.czero_add]
  · refine ⟨CF.divPy ⟨0, 0, true⟩ w, ?_, rfl⟩
    simp [diffBinCalc, diffEventLoop, hloop, ok_bind, pure_eq_ok, hw,
      CF.czero_add]

/-- C9 witness: the NaN propagation evaluated at `n = 2`, unit weight and
a concrete momentum-zero particle. -/
theorem flow_pt_zero_nan_witness :
    (∃ z : CF, particleLoop testOps 2 [ptZeroParticle] czero 0 = .ok (z, 1) ∧
      z.isNaN = true) ∧
    (∃ z : CF, integratedFlow testOps 2 [[ptZeroParticle]] = .ok z ∧
      z.isNaN = true) ∧
    (∃ z : CF, diffBinCalc testOps 2 [[ptZeroParticle]] = .ok z ∧
      z.isNaN = true) :=
  flow_pt_zero_nan testOps 2 1 ptZeroParticle (by norm_num) rfl
    (by norm_num) rfl rfl rfl

/-- C7 (amended part): on a particle whose PDG validity flag is `False`,
every PDG-derived query method returns its neutral default without
raising: `False` for the classification predicates, `None` for the spin
queries and for the PDG-derived charge computation. -/
theorem pdg_invalid_neutral_defaults (lookup : ℚ → PDGInfo) (p : Particle)
    (hinv : p.pdg_valid_ = some false) :
    isMesonQ lookup p = .ok false ∧ isBaryonQ lookup p = .ok false ∧
    isHadronQ lookup p = .ok false ∧ isStrangeQ lookup p = .ok false ∧
    isHeavyFlavorQ lookup p = .ok false ∧ spinQ lookup p = .ok none ∧
    spinDegeneracyQ lookup p = .ok none ∧
    computeChargeFromPdg lookup p = .ok none := by
  refine ⟨?_, ?_, ?_, ?_, ?_, ?_, ?_, ?_⟩ <;>
    simp [isMesonQ, isBaryonQ, isHadronQ, isStrangeQ, isHeavyFlavorQ,
      spinQ, spinDegeneracyQ, computeChargeFromPdg, hinv, pure_eq_ok]

/-- C7 witness: the neutral defaults evaluated on a concrete
invalid-PDG particle. -/
theorem pdg_invalid_neutral_defaults_witness :
    isMesonQ lookupInvalid { pdg_valid_ := some false } = .ok false ∧
    isBaryonQ lookupInvalid { pdg_valid_ := some false } = .ok false ∧
    isHadronQ lookupInvalid { pdg_valid_ := some false } = .ok false ∧
    isStrangeQ lookupInvalid { pdg_valid_ := some false } = .ok false ∧
    isHeavyFlavorQ lookupInvalid { pdg_valid_ := some false } = .ok false ∧
    spinQ lookupInvalid { pdg_valid_ := some false } = .ok none ∧
    spinDegeneracyQ lookupInvalid { pdg_valid_ := some false } = .ok none ∧
    computeChargeFromPdg lookupInvalid { pdg_valid_ := some false } = .ok none :=
  pdg_invalid_neutral_defaults lookupInvalid { pdg_valid_ := some false } rfl

/-- C7 (counterexample): a JETSCAPE particle constructed from a valid
seven-column line under a lookup that declares its PDG code invalid is
built successfully, but reading its `charge` property then raises
`ValueError("charge not set")` — it does not return `None` — because the
PDG-derived charge was stored as `None`. -/
theorem pdg_invalid_charge_getter_raises :
    (initializeFromArray testOps lookupInvalid .JETSCAPE arrJ7).isOk = true ∧
    (initializeFromArray testOps lookupInvalid .JETSCAPE arrJ7).bind chargeGetter =
      .error (.valueError "charge not set") := by
  constructor <;> rfl

/-- C1 (counterexample): a single particle with momentum set but weight
unset — exactly what every JETSCAPE-read particle looks like — makes
`integrated_flow` raise `ValueError("weight not set")`: the read of the
raising `weight` property defeats the `1. if ... is None` default the
claim describes, so no value is returned at all. -/
theorem integrated_flow_unset_weight_raises :
    integratedFlow testOps 2 [[noWeightParticle]] =
      .error (.valueError "weight not set") ∧
    (integratedFlow testOps 2 [[noWeightParticle]]).isOk = false := by
  constructor <;> rfl

/-- C5: applying the `{charged_particles, pt_cut}` filter configuration
through `__apply_kwargs_filters` yields the same event collection for both
mapping insertion orders (the two element-wise cuts commute), and the
common result is the pt cut of the charge cut. -/
theorem apply_filters_order_independent (ops : MathOps) (impls : FilterImpls)
    (cut : ℚ × ℚ) (events : List (List Particle)) :
    applyKwargsFilters ops impls [.charged_particles true, .pt_cut cut] events =
      applyKwargsFilters ops impls [.pt_cut cut, .charged_particles true] events ∧
    applyKwargsFilters ops impls [.charged_particles true, .pt_cut cut] events =
      ptCutFilter ops cut (chargedParticlesFilter events) := by
  have hcomm :
      ptCutFilter ops cut (chargedParticlesFilter events) =
        chargedParticlesFilter (ptCutFilter ops cut events) := by
    simp only [ptCutFilter, chargedParticlesFilter, List.map_map]
    refine List.map_congr_left fun ev _ => ?_
    simp only [Function.comp]
    rw [List.filter_filter, List.filter_filter]
    refine List.filter_congr fun p _ => ?_
    exact Bool.and_comm _ _
  refine ⟨?_, rfl⟩
  simp only [applyKwargsFilters, List.foldl_cons, List.foldl_nil, if_pos]
  exact hcomm

/-- The number-collection loop keeps the first two parseable tokens:
with fewer than two numbers so far it computes the two-truncated
concatenation with the parses of the remaining words. -/
theorem collectTwoNumbers_take_two (parse : String → Option ℚ) :
    ∀ (ws : List String) (acc : List ℚ), acc.length < 2 →
      collectTwoNumbers parse ws acc = (acc ++ ws.filterMap parse).take 2 := by
  intro ws
  induction ws with
  | nil =>
    intro acc h
    simp only [collectTwoNumbers, List.filterMap_nil, List.append_nil]
    rw [List.take_of_length_le (by omega)]
  | cons w ws ih =>
    intro acc h
    simp only [collectTwoNumbers]
    cases hp : parse w with
    | none => simp [List.filterMap_cons, hp, ih acc h]
    | some x =>
      simp only [List.filterMap_cons, hp]
      by_cases h2 : (acc ++ [x]).length = 2
      · rw [if_pos h2]
        have hacc : acc.length = 1 := by simpa using h2
        obtain ⟨a, rfl⟩ : ∃ a, acc = [a] := by
          cases acc with
          | nil => simp at hacc
          | cons a t =>
            cases t with
            | nil => exact ⟨a, rfl⟩
            | cons b t2 => simp at hacc
        simp
      · rw [if_neg h2]
        have h2a : acc.length + 1 ≠ 2 := by simpa using h2
        have hlt : (acc ++ [x]).length < 2 := by
          simp only [List.length_append, List.length_cons, List.length_nil]
          omega
        rw [ih _ hlt, List.append_assoc]
        rfl

/-- C10: on the whitespace tokens of the last line, `get_sigmaGen` returns
exactly the first two float-parseable tokens, in order of appearance, as a
pair; with fewer than two parseable tokens it raises `IndexError`. -/
theorem sigma_gen_first_two_floats (parse : String → Option ℚ)
    (words : List String) :
    (∀ a b rest, words.filterMap parse = a :: b :: rest →
      getSigmaGen parse words = .ok (a, b)) ∧
    ((words.filterMap parse).length < 2 →
      getSigmaGen parse words = .error (.indexError "list index out of range")) := by
  have hc := collectTwoNumbers_take_two parse words [] (by norm_num)
  simp only [List.nil_append] at hc
  constructor
  · intro a b rest hw
    simp [getSigmaGen, hc, hw]
  · intro hlen
    rcases hf : words.filterMap parse with _ | ⟨a, _ | ⟨b, rest⟩⟩
    · simp [getSigmaGen, hc, hf]
    · simp [getSigmaGen, hc, hf]
    · rw [hf] at hlen
      simp only [List.length_cons] at hlen
      omega

/-- C10 witness: a concrete last line
`"sigmaGen  0.3  0.05  extra"`-style token list under a concrete float
parser. -/
theorem sigma_gen_first_two_floats_witness :
    getSigmaGen
      (fun s => if s = "0.3" then some (3 / 10) else
        if s = "0.05" then some (1 / 20) else if s = "7" then some 7 else none)
      ["sigmaGen", "0.3", "0.05", "7"] = .ok (3 / 10, 1 / 20) :=
  (sigma_gen_first_two_floats
      (fun s => if s = "0.3" then some (3 / 10) else
        if s = "0.05" then some (1 / 20) else if s = "7" then some 7 else none)
      ["sigmaGen", "0.3", "0.05", "7"]).1 (3 / 10) (1 / 20) [7] (by rfl)

/-- C3: after a ranged load `events=(a, b)` on a valid file (the bounded
pass materialized `b - a + 1` events), the reconciliation step of
`set_particle_list` sets the event count to `b - a + 1` and replaces the
metadata table by the slice `[a, b]` of the indexed table, whose length
then equals the number of materialized events; and on a full-file load a
mismatch between materialized and indexed event counts raises the
event-count-mismatch `IndexError`. -/
theorem jetscape_reconcile_event_range {α : Type} (table : List α)
    (a b plen nEvents : ℕ) (hab : a ≤ b) (hb : b < table.length)
    (hplen : plen = b - a + 1) :
    reconcileEvents (some (.inr (a, b))) plen table nEvents =
      .ok ((table.take (b + 1)).drop a, b - a + 1) ∧
    ((table.take (b + 1)).drop a).length = b - a + 1 ∧
    ((table.take (b + 1)).drop a).length = plen ∧
    (∀ i, i ≤ b - a → ((table.take (b + 1)).drop a)[i]? = table[a + i]?) ∧
    (∀ plen2 nEvents2 : ℕ, plen2 ≠ nEvents2 →
      reconcileEvents none plen2 table nEvents2 =
        .error (.indexError "Number of events in Jetscape file does not match the number of events specified by the comments in the Jetscape file!")) := by
  have hlen : ((table.take (b + 1)).drop a).length = b - a + 1 := by
    simp only [List.length_drop, List.length_take]
    omega
  refine ⟨rfl, hlen, by omega, ?_, ?_⟩
  · intro i hi
    rw [List.getElem?_drop, List.getElem?_take_of_lt (by omega)]
  · intro plen2 nEvents2 hne
    simp [reconcileEvents, hne]

/-- C3 witness: the range reconciliation evaluated on a concrete
four-row metadata table with `events = (1, 2)`. -/
theorem jetscape_reconcile_event_range_witness :
    reconcileEvents (some (.inr (1, 2))) 2 [10, 20, 30, 40] 9 =
      .ok ([20, 30], 2) := by
  have h := (jetscape_reconcile_event_range [10, 20, 30, 40] 1 2 2 9
    (by norm_num) (by norm_num) (by norm_num)).1
  simpa using h

/-! ## Flat accumulation of `integrated_flow` -/

theorem foldl_cfadd_hoist (f : Particle → CF) (ps : List Particle) :
    ∀ x : CF, ps.foldl (fun a p => a.add (f p)) x =
      x.add (ps.foldl (fun a p => a.add (f p)) czero) := by
  induction ps with
  | nil => intro x; simp [CF.add_czero]
  | cons p ps ih =>
    intro x
    simp only [List.foldl_cons]
    rw [ih (x.add (f p)), ih (czero.add (f p)), CF.czero_add, CF.addAssoc]

theorem foldl_qadd_hoist (f : Particle → ℚ) (ps : List Particle) :
    ∀ x : ℚ, ps.foldl (fun a p => a + f p) x =
      x + ps.foldl (fun a p => a + f p) 0 := by
  induction ps with
  | nil => intro x; simp
  | cons p ps ih =>
    intro x
    simp only [List.foldl_cons]
    rw [ih (x + f p), ih (0 + f p)]
    ring

theorem specFlowSum_cons (ops : MathOps) (n : ℕ) (p : Particle)
    (ps : List Particle) :
    specFlowSum ops n (p :: ps) =
      (specContribution ops n p).add (specFlowSum ops n ps) := by
  simp only [specFlowSum, List.foldl_cons]
  rw [foldl_cfadd_hoist, CF.czero_add]

theorem specWeightSum_cons (p : Particle) (ps : List Particle) :
    specWeightSum (p :: ps) = p.weight_.getD 1 + specWeightSum ps := by
  simp only [specWeightSum, List.foldl_cons]
  rw [foldl_qadd_hoist, zero_add]

theorem specFlowSum_append (ops : MathOps) (n : ℕ) (l1 l2 : List Particle) :
    specFlowSum ops n (l1 ++ l2) =
      (specFlowSum ops n l1).add (specFlowSum ops n l2) := by
  simp only [specFlowSum, List.foldl_append]
  rw [foldl_cfadd_hoist]

theorem specWeightSum_append (l1 l2 : List Particle) :
    specWeightSum (l1 ++ l2) = specWeightSum l1 + specWeightSum l2 := by
  simp only [specWeightSum, List.foldl_append]
  rw [foldl_qadd_hoist]

theorem specWeightSum_nonneg (ps : List Particle)
    (h : ∀ p ∈ ps, ∃ w, p.weight_ = some w ∧ 0 < w) :
    0 ≤ specWeightSum ps := by
  induction ps with
  | nil => simp [specWeightSum]
  | cons p ps ih =>
    obtain ⟨w, hw, hwpos⟩ := h p (List.mem_cons_self p ps)
    rw [specWeightSum_cons, hw]
    have := ih fun q hq => h q (List.mem_cons_of_mem p hq)
    simp only [Option.getD_some]
    linarith

theorem specWeightSum_eq_zero_iff_nil (ps : List Particle)
    (h : ∀ p ∈ ps, ∃ w, p.weight_ = some w ∧ 0 < w)
    (hz : specWeightSum ps = 0) : ps = [] := by
  cases ps with
  | nil => rfl
  | cons p ps =>
    obtain ⟨w, hw, hwpos⟩ := h p (List.mem_cons_self p ps)
    rw [specWeightSum_cons, hw] at hz
    have hnn := specWeightSum_nonneg ps fun q hq => h q (List.mem_cons_of_mem p hq)
    simp only [Option.getD_some] at hz
    linarith

/-- `pt**n * z / pt**n` cancels exactly when `pt` is nonzero. -/
theorem flowTerm_of_pt_ne_zero (ops : MathOps) (n : ℕ) (w phi : ℚ) (pt : ℚ)
    (h : pt ≠ 0) : flowTerm ops n w pt phi = CF.smul w (expi ops (n * phi)) := by
  have hp : pt ^ n ≠ 0 := pow_ne_zero _ h
  simp only [flowTerm, CF.divNp, CF.smul, expi, if_neg hp]
  rw [mul_div_cancel_left₀ _ hp, mul_div_cancel_left₀ _ hp]

/-- The inner particle loop on fully set, `pt ≠ 0` particles computes the
flat contribution and weight sums of the spec. -/
theorem particleLoop_ok (ops : MathOps) (n : ℕ) (ev : List Particle) :
    ∀ (c : CF) (q : ℚ),
    (∀ p ∈ ev, p.px_.isSome ∧ p.py_.isSome ∧ p.weight_.isSome ∧
      ptVal ops p ≠ 0) →
    particleLoop ops n ev c q =
      .ok (c.add (specFlowSum ops n ev), q + specWeightSum ev) := by
  induction ev with
  | nil =>
    intro c q _
    simp [particleLoop, specFlowSum, specWeightSum, CF.add_czero]
  | cons p ps ih =>
    intro c q h
    obtain ⟨hpx, hpy, hwt, hpt⟩ := h p (List.mem_cons_self p ps)
    obtain ⟨px, hpx⟩ := Option.isSome_iff_exists.mp hpx
    obtain ⟨py, hpy⟩ := Option.isSome_iff_exists.mp hpy
    obtain ⟨w, hwt⟩ := Option.isSome_iff_exists.mp hwt
    have hptv : ptVal ops p = ops.sqrt (px ^ 2 + py ^ 2) := by
      simp [ptVal, hpx, hpy]
    have hphiv : phiVal ops p =
        (if |px| < eps6 ∧ |py| < eps6 then 0 else ops.atan2 py px) := by
      simp [phiVal, hpx, hpy]
    simp only [particleLoop, getRequired, hpx, hpy, hwt, ptAbsE, phiE,
      ok_bind, pure_eq_ok]
    rw [ih _ _ fun q hq => h q (List.mem_cons_of_mem p hq)]
    rw [flowTerm_of_pt_ne_zero _ _ _ _ _ (hptv ▸ hpt)]
    rw [specFlowSum_cons, specWeightSum_cons]
    have hcontr : specContribution ops n p =
        CF.smul w (expi ops (n * (if |px| < eps6 ∧ |py| < eps6 then 0
          else ops.atan2 py px))) := by
      rw [specContribution, hphiv, hwt, Option.getD_some]
    rw [hcontr, hwt, Option.getD_some, CF.addAssoc, add_assoc]

/-- The event loop of `integrated_flow` on positively weighted, fully set,
`pt ≠ 0` ensembles: the per-event reset branch only ever fires while no
contribution has accumulated, so the loop computes the flat ensemble
sums. -/
theorem integratedEventLoop_ok (ops : MathOps) (n : ℕ)
    (evs : List (List Particle)) :
    ∀ (A : CF) (W : ℚ),
    (∀ ev ∈ evs, ∀ p ∈ ev, p.px_.isSome ∧ p.py_.isSome ∧
      (∃ w, p.weight_ = some w ∧ 0 < w) ∧ ptVal ops p ≠ 0) →
    0 ≤ W → (W = 0 → A = czero) →
    integratedEventLoop ops n evs A W =
      .ok (A.add (specFlowSum ops n evs.flatten),
        W + specWeightSum evs.flatten) := by
  induction evs with
  | nil =>
    intro A W _ _ _
    simp [integratedEventLoop, specFlowSum, specWeightSum, CF.add_czero]
  | cons ev evs ih =>
    intro A W h hWnn hWzero
    have hev : ∀ p ∈ ev, p.px_.isSome ∧ p.py_.isSome ∧ p.weight_.isSome ∧
        ptVal ops p ≠ 0 := by
      intro p hp
      obtain ⟨h1, h2, ⟨w, hw, _⟩, h4⟩ := h ev (List.mem_cons_self ev evs) p hp
      exact ⟨h1, h2, by simp [hw], h4⟩
    have hevw : ∀ p ∈ ev, ∃ w, p.weight_ = some w ∧ 0 < w := fun p hp =>
      (h ev (List.mem_cons_self ev evs) p hp).2.2.1
    have hrest : ∀ ev2 ∈ evs, ∀ p ∈ ev2, p.px_.isSome ∧ p.py_.isSome ∧
        (∃ w, p.weight_ = some w ∧ 0 < w) ∧ ptVal ops p ≠ 0 :=
      fun ev2 hev2 => h ev2 (List.mem_cons_of_mem ev hev2)
    have hsw : 0 ≤ specWeightSum ev := specWeightSum_nonneg ev hevw
    simp only [integratedEventLoop, particleLoop_ok ops n ev czero W hev,
      ok_bind, CF.czero_add]
    by_cases hz : W + specWeightSum ev = 0
    · rw [if_neg (by simpa using hz)]
      have hW0 : W = 0 := by linarith
      have hsw0 : specWeightSum ev = 0 := by linarith
      have hevnil : ev = [] := specWeightSum_eq_zero_iff_nil ev hevw hsw0
      rw [ih czero (W + specWeightSum ev) hrest (le_of_eq hz.symm)
        (fun _ => rfl)]
      subst hevnil
      simp only [List.flatten_cons, List.nil_append, hW0, hsw0, add_zero]
      rw [CF.czero_add, hWzero hW0, CF.czero_add]
    · rw [if_pos (by simpa using hz)]
      rw [ih (A.add (specFlowSum ops n ev)) (W + specWeightSum ev) hrest
        (by linarith) (fun hc => absurd hc hz)]
      simp only [List.flatten_cons]
      rw [specFlowSum_append, specWeightSum_append, CF.addAssoc, add_assoc]

/-- C1 (amended): on an ensemble whose particles all have `px`, `py` and
`weight` set, with strictly positive weights, no particle at `pt = 0`,
and at least one particle, `integrated_flow` returns exactly the flat
ensemble accumulation of `weight · exp(i·n·φ)` divided by the total
weight, one accumulation over all particles of all events. -/
theorem integrated_flow_flat_accumulation (ops : MathOps) (n : ℕ)
    (events : List (List Particle))
    (hgood : ∀ ev ∈ events, ∀ p ∈ ev, p.px_.isSome ∧ p.py_.isSome ∧
      (∃ w, p.weight_ = some w ∧ 0 < w) ∧ ptVal ops p ≠ 0)
    (hne : events.flatten ≠ []) :
    integratedFlow ops n events = .ok (specIntegratedFlow ops n events) := by
  have hflat : ∀ p ∈ events.flatten, ∃ w, p.weight_ = some w ∧ 0 < w := by
    intro p hp
    obtain ⟨ev, hev, hpev⟩ := List.mem_flatten.mp hp
    exact (hgood ev hev p hpev).2.2.1
  have hpos : 0 < specWeightSum events.flatten := by
    cases hfe : events.flatten with
    | nil => exact absurd hfe hne
    | cons p ps =>
      obtain ⟨w, hw, hwpos⟩ := hflat p (by rw [hfe]; exact List.mem_cons_self p ps)
      have hnn : 0 ≤ specWeightSum ps := by
        refine specWeightSum_nonneg ps fun q hq => hflat q ?_
        rw [hfe]; exact List.mem_cons_of_mem p hq
      rw [specWeightSum_cons, hw, Option.getD_some]
      linarith
  simp only [integratedFlow, integratedEventLoop_ok ops n events czero 0 hgood
    le_rfl (fun _ => rfl), ok_bind, CF.czero_add, zero_add]
  rw [if_neg (ne_of_gt hpos)]
  rfl

/-- C1 witness: the flat accumulation evaluated on a concrete one-particle
ensemble. -/
theorem integrated_flow_flat_accumulation_witness :
    integratedFlow testOps 2 [[goodParticle]] =
      .ok (specIntegratedFlow testOps 2 [[goodParticle]]) :=
  integrated_flow_flat_accumulation testOps 2 [[goodParticle]]
    (by
      intro ev hev p hp
      simp only [List.mem_singleton] at hev
      subst hev
      simp only [List.mem_singleton] at hp
      subst hp
      refine ⟨rfl, rfl, ⟨2, rfl, by norm_num⟩, ?_⟩
      norm_num [ptVal, goodParticle, testOps])
    (by simp [goodParticle])

/-! ## Bin partition of `differential_flow` -/

theorem sorted_getD_le (bins : List ℚ) (hs : List.Sorted (· < ·) bins)
    (i j : ℕ) (hij : i ≤ j) (hj : j < bins.length) :
    bins.getD i 0 ≤ bins.getD j 0 := by
  have hi : i < bins.length := lt_of_le_of_lt hij hj
  rw [List.getD_eq_getElem?_getD, List.getD_eq_getElem?_getD,
    List.getElem?_eq_getElem hi, List.getElem?_eq_getElem hj]
  simp only [Option.getD_some]
  rcases eq_or_lt_of_le hij with rfl | hlt
  · exact le_refl _
  · have h2 := @List.Sorted.rel_get_of_lt ℚ (fun a b => a < b) bins hs
      ⟨i, hi⟩ ⟨j, hj⟩ (Fin.mk_lt_mk.mpr hlt)
    simpa [List.get_eq_getElem] using h2.le

theorem binIndex_exists : ∀ (bins : List ℚ) (q : ℚ),
    List.Sorted (· < ·) bins → 2 ≤ bins.length →
    bins.getD 0 0 ≤ q → q < bins.getD (bins.length - 1) 0 →
    ∃ k, k < bins.length - 1 ∧ bins.getD k 0 ≤ q ∧ q < bins.getD (k + 1) 0 := by
  intro bins
  induction bins with
  | nil => intro q _ hlen _ _; simp at hlen
  | cons b0 tl ih =>
    intro q hs hlen hlo hhi
    cases tl with
    | nil => simp at hlen
    | cons b1 rest =>
      by_cases hq : q < b1
      · refine ⟨0, ?_, ?_, ?_⟩
        · simp only [List.length_cons]; omega
        · simpa using hlo
        · simpa using hq
      · push_neg at hq
        have hrest : rest ≠ [] := by
          intro hr
          subst hr
          simp only [List.length_cons, List.length_nil] at hhi
          norm_num [List.getD] at hhi
          exact absurd hhi (not_lt.mpr hq)
        obtain ⟨k, hk, hk1, hk2⟩ := ih q hs.of_cons
          (by cases rest with
            | nil => exact absurd rfl hrest
            | cons r rs => simp)
          (by simpa using hq)
          (by
            have hidx : (b0 :: b1 :: rest).length - 1 = (b1 :: rest).length - 1 + 1 := by
              simp only [List.length_cons]
              omega
            rw [hidx] at hhi
            simpa using hhi)
        refine ⟨k + 1, ?_, by simpa using hk1, by simpa using hk2⟩
        simp only [List.length_cons] at hk ⊢
        omega

theorem binIndex_unique (bins : List ℚ) (hs : List.Sorted (· < ·) bins)
    (q : ℚ) (k1 k2 : ℕ)
    (h1 : k1 < bins.length - 1 ∧ bins.getD k1 0 ≤ q ∧ q < bins.getD (k1 + 1) 0)
    (h2 : k2 < bins.length - 1 ∧ bins.getD k2 0 ≤ q ∧ q < bins.getD (k2 + 1) 0) :
    k1 = k2 := by
  obtain ⟨hk1, hlo1, hhi1⟩ := h1
  obtain ⟨hk2, hlo2, hhi2⟩ := h2
  by_contra hne
  rcases Nat.lt_or_ge k1 k2 with hlt | hge
  · have := sorted_getD_le bins hs (k1 + 1) k2 (by omega) (by omega)
    linarith
  · have hlt2 : k2 < k1 := by omega
    have := sorted_getD_le bins hs (k2 + 1) k1 (by omega) (by omega)
    linarith

theorem binIndex_none (bins : List ℚ) (hs : List.Sorted (· < ·) bins)
    (q : ℚ)
    (h : q < bins.getD 0 0 ∨ bins.getD (bins.length - 1) 0 ≤ q) :
    ∀ k, k < bins.length - 1 →
      ¬(bins.getD k 0 ≤ q ∧ q < bins.getD (k + 1) 0) := by
  intro k hk ⟨hlo, hhi⟩
  rcases h with hbelow | habove
  · have := sorted_getD_le bins hs 0 k (Nat.zero_le k) (by omega)
    linarith
  · have := sorted_getD_le bins hs (k + 1) (bins.length - 1) (by omega) (by omega)
    linarith

theorem binEventLoop_ok (ops : MathOps) (fvar : String) (lo hi : ℚ)
    (v : Particle → ℚ) (ev : List Particle)
    (hobs : ∀ p ∈ ev, observableVal ops fvar p = .ok (v p)) :
    ∀ acc, binEventLoop ops fvar lo hi ev acc =
      .ok (acc ++ ev.filter fun p => decide (lo ≤ v p ∧ v p < hi)) := by
  induction ev with
  | nil => intro acc; simp [binEventLoop]
  | cons p ps ih =>
    intro acc
    have hp := hobs p (List.mem_cons_self p ps)
    have hps : ∀ q ∈ ps, observableVal ops fvar q = .ok (v q) := fun q hq =>
      hobs q (List.mem_cons_of_mem p hq)
    simp only [binEventLoop, hp, ok_bind, List.filter_cons]
    by_cases hc : lo ≤ v p ∧ v p < hi
    · rw [if_pos hc, ih hps (acc ++ [p])]
      simp [hc]
    · rw [if_neg hc, ih hps acc]
      simp [hc]

theorem binEventsLoop_ok (ops : MathOps) (fvar : String) (lo hi : ℚ)
    (v : Particle → ℚ) :
    ∀ events : List (List Particle),
    (∀ ev ∈ events, ∀ p ∈ ev, observableVal ops fvar p = .ok (v p)) →
    binEventsLoop ops fvar lo hi events =
      .ok (events.map fun ev =>
        ev.filter fun p => decide (lo ≤ v p ∧ v p < hi)) := by
  intro events
  induction events with
  | nil => intro _; rfl
  | cons ev evs ih =>
    intro h
    simp only [binEventsLoop,
      binEventLoop_ok ops fvar lo hi v ev (h ev (List.mem_cons_self ev evs)) [],
      ok_bind, List.nil_append,
      ih fun e he => h e (List.mem_cons_of_mem ev he), List.map_cons, pure_eq_ok]

theorem binsLoop_ok (ops : MathOps) (fvar : String)
    (events : List (List Particle)) (bins : List ℚ) (v : Particle → ℚ)
    (hobs : ∀ ev ∈ events, ∀ p ∈ ev, observableVal ops fvar p = .ok (v p)) :
    ∀ ks : List ℕ, binsLoop ops fvar events bins ks =
      .ok (ks.map fun k => events.map fun ev => ev.filter fun p =>
        decide (bins.getD k 0 ≤ v p ∧ v p < bins.getD (k + 1) 0)) := by
  intro ks
  induction ks with
  | nil => rfl
  | cons k ks ih =>
    simp only [binsLoop, binEventsLoop_ok ops fvar _ _ v events hobs, ok_bind,
      ih, List.map_cons, pure_eq_ok]

/-- C4: on a strictly increasing bins sequence, `differential_flow` places
each particle of each event into bin `k` precisely when its observable
value `val` satisfies `bins[k] <= val < bins[k+1]` — the bin contents are
the per-event filters by that predicate, preserving event grouping — and
for values in `[bins[0], bins[-1])` that index exists and is unique,
while values below `bins[0]` or at/above `bins[-1]` satisfy no bin
predicate. -/
theorem differential_flow_bin_partition (ops : MathOps) (fvar : String)
    (events : List (List Particle)) (bins : List ℚ) (v : Particle → ℚ)
    (hobs : ∀ ev ∈ events, ∀ p ∈ ev, observableVal ops fvar p = .ok (v p))
    (hs : List.Sorted (· < ·) bins) (hlen : 2 ≤ bins.length) :
    binParticles ops fvar events bins =
      .ok ((List.range (bins.length - 1)).map fun k =>
        events.map fun ev => ev.filter fun p =>
          decide (bins.getD k 0 ≤ v p ∧ v p < bins.getD (k + 1) 0)) ∧
    (∀ q : ℚ, bins.getD 0 0 ≤ q → q < bins.getD (bins.length - 1) 0 →
      ∃ k, (k < bins.length - 1 ∧ bins.getD k 0 ≤ q ∧ q < bins.getD (k + 1) 0) ∧
        ∀ k2, (k2 < bins.length - 1 ∧ bins.getD k2 0 ≤ q ∧
          q < bins.getD (k2 + 1) 0) → k2 = k) ∧
    (∀ q : ℚ, q < bins.getD 0 0 ∨ bins.getD (bins.length - 1) 0 ≤ q →
      ∀ k, k < bins.length - 1 →
        ¬(bins.getD k 0 ≤ q ∧ q < bins.getD (k + 1) 0)) := by
  refine ⟨binsLoop_ok ops fvar events bins v hobs _, ?_, binIndex_none bins hs⟩
  intro q hlo hhi
  obtain ⟨k, hk⟩ := binIndex_exists bins q hs hlen hlo hhi
  exact ⟨k, hk, fun k2 hk2 => binIndex_unique bins hs q k2 k hk2 hk⟩

/-- C4 witness: the bin partition evaluated on a concrete particle and the
bins `[0, 2, 4]`. -/
theorem differential_flow_bin_partition_witness :
    binParticles testOps "pt" [[goodParticle]] [0, 2, 4] =
      .ok [[[goodParticle]], [[]]] := by
  have h := (differential_flow_bin_partition testOps "pt" [[goodParticle]]
    [0, 2, 4] (fun _ => 1)
    (by
      intro ev hev p hp
      simp only [List.mem_singleton] at hev
      subst hev
      simp only [List.mem_singleton] at hp
      subst hp
      simp only [observableVal, if_pos, ptAbsE, goodParticle, getRequired,
        ok_bind, pure_eq_ok, testOps]
      norm_num)
    (by decide) (by norm_num)).1
  simpa using h

/-! ## Column-count validation of `Particle.__initialize_from_array` -/

theorem lengthAccepted_iff (fmt : InputFormat) (len : ℕ) :
    lengthAccepted fmt len = true ↔
      (len = columnCount fmt ∨
        ((fmt = .Oscar2013Extended ∨ fmt = .Oscar2013Extended_IC) ∧
          columnCount fmt - 2 ≤ len ∧ len ≤ columnCount fmt)) := by
  cases fmt <;>
    simp [lengthAccepted, columnCount, attrMapping] <;>
    omega

theorem initializeFromArray_isOk (ops : MathOps) (lookup : ℚ → PDGInfo)
    (fmt : InputFormat) (arr : List ℚ) :
    (initializeFromArray ops lookup fmt arr).isOk = lengthAccepted fmt arr.length := by
  by_cases hacc : lengthAccepted fmt arr.length = true
  · rw [hacc]
    have hlen := (lengthAccepted_iff fmt arr.length).mp hacc
    cases fmt with
    | Oscar2013 =>
      have h12 : arr.length = 12 := by
        simpa [columnCount, attrMapping] using hlen
      have h9 : arr[9]? = some arr[9] := List.getElem?_eq_getElem (by omega)
      simp [initializeFromArray, hacc, attrMapping, setAttr, h9, pure_eq_ok,
        ok_bind, Except.isOk, Except.toBool]
    | Oscar2013Extended =>
      have h20 : 20 ≤ arr.length := by
        simp only [columnCount, attrMapping] at hlen
        rcases hlen with h | ⟨_, h1, _⟩ <;> simp_all
      have h9 : arr[9]? = some arr[9] := List.getElem?_eq_getElem (by omega)
      simp [initializeFromArray, hacc, attrMapping, setAttr, h9, pure_eq_ok,
        ok_bind, Except.isOk, Except.toBool]
    | Oscar2013Extended_IC =>
      have h20 : 20 ≤ arr.length := by
        simp only [columnCount, attrMapping] at hlen
        rcases hlen with h | ⟨_, h1, _⟩ <;> simp_all
      have h9 : arr[9]? = some arr[9] := List.getElem?_eq_getElem (by omega)
      simp [initializeFromArray, hacc, attrMapping, setAttr, h9, pure_eq_ok,
        ok_bind, Except.isOk, Except.toBool]
    | Oscar2013Extended_Photons =>
      have h21 : arr.length = 21 := by
        simpa [columnCount, attrMapping] using hlen
      have h9 : arr[9]? = some arr[9] := List.getElem?_eq_getElem (by omega)
      simp [initializeFromArray, hacc, attrMapping, setAttr, h9, pure_eq_ok,
        ok_bind, Except.isOk, Except.toBool]
    | JETSCAPE =>
      have h7 : arr.length = 7 := by
        simpa [columnCount, attrMapping] using hlen
      have h1 : arr[1]? = some arr[1] := List.getElem?_eq_getElem (by omega)
      have h3 : arr[3]? = some arr[3] := List.getElem?_eq_getElem (by omega)
      have h4 : arr[4]? = some arr[4] := List.getElem?_eq_getElem (by omega)
      have h5 : arr[5]? = some arr[5] := List.getElem?_eq_getElem (by omega)
      have h6 : arr[6]? = some arr[6] := List.getElem?_eq_getElem (by omega)
      simp [initializeFromArray, hacc, attrMapping, setAttr, h1, h3, h4, h5, h6,
        computeMassFromEnergyMomentum, computeChargeFromPdg, pAbsE, getRequired,
        pure_eq_ok, ok_bind, Except.isOk, Except.toBool]
  · have hacc2 : lengthAccepted fmt arr.length = false :=
      Bool.not_eq_true _ |>.mp hacc
    rw [hacc2]
    simp [initializeFromArray, hacc2, Except.isOk, Except.toBool]

theorem initializeFromArray_trailing (ops : MathOps) (lookup : ℚ → PDGInfo)
    (fmt : InputFormat) (arr : List ℚ)
    (hfmt : fmt = .Oscar2013Extended ∨ fmt = .Oscar2013Extended_IC)
    (h20 : 20 ≤ arr.length) (h22 : arr.length ≤ 22) :
    ∃ p, initializeFromArray ops lookup fmt arr = .ok p ∧
      p.baryon_number_ = arr[20]? ∧ p.strangeness_ = arr[21]? := by
  have hacc : lengthAccepted fmt arr.length = true := by
    refine (lengthAccepted_iff fmt arr.length).mpr (Or.inr ⟨hfmt, ?_, ?_⟩) <;>
      rcases hfmt with rfl | rfl <;>
      simp [columnCount, attrMapping] <;> omega
  have h9 : arr[9]? = some arr[9] := List.getElem?_eq_getElem (by omega)
  rcases hfmt with rfl | rfl <;>
    [skip; skip] <;>
  · simp only [initializeFromArray, if_pos hacc, attrMapping, List.foldl_cons,
      List.foldl_nil, setAttr, pure_eq_ok, ok_bind]
    simp
    rw [h9]
    exact ⟨_, rfl, rfl, rfl⟩

/-- C6: construction from a particle array succeeds exactly when the array
length equals the format's declared column count — 12 for `Oscar2013`, 22
for the two Extended layouts, 21 for `Oscar2013Extended_Photons`, 7 for
`JETSCAPE` — except that `Oscar2013Extended` and `Oscar2013Extended_IC`
accept down to two missing trailing columns, whose fields (baryon number,
strangeness) are then left unset; any other length raises the
corrupted-input `ValueError`. -/
theorem particle_array_length_validation (ops : MathOps)
    (lookup : ℚ → PDGInfo) (fmt : InputFormat) (arr : List ℚ) :
    ((initializeFromArray ops lookup fmt arr).isOk = true ↔
      (arr.length = columnCount fmt ∨
        ((fmt = .Oscar2013Extended ∨ fmt = .Oscar2013Extended_IC) ∧
          columnCount fmt - 2 ≤ arr.length ∧ arr.length ≤ columnCount fmt))) ∧
    (columnCount .Oscar2013 = 12 ∧ columnCount .Oscar2013Extended = 22 ∧
      columnCount .Oscar2013Extended_IC = 22 ∧
      columnCount .Oscar2013Extended_Photons = 21 ∧
      columnCount .JETSCAPE = 7) ∧
    (¬(arr.length = columnCount fmt ∨
        ((fmt = .Oscar2013Extended ∨ fmt = .Oscar2013Extended_IC) ∧
          columnCount fmt - 2 ≤ arr.length ∧ arr.length ≤ columnCount fmt)) →
      initializeFromArray ops lookup fmt arr =
        .error (.valueError "The input file is corrupted!")) ∧
    ((fmt = .Oscar2013Extended ∨ fmt = .Oscar2013Extended_IC) →
      20 ≤ arr.length → arr.length ≤ 22 →
      ∃ p, initializeFromArray ops lookup fmt arr = .ok p ∧
        p.baryon_number_ = arr[20]? ∧ p.strangeness_ = arr[21]?) := by
  refine ⟨?_, ⟨by decide, by decide, by decide, by decide, by decide⟩, ?_,
    fun hfmt h20 h22 =>
      initializeFromArray_trailing ops lookup fmt arr hfmt h20 h22⟩
  · rw [initializeFromArray_isOk]
    exact lengthAccepted_iff fmt arr.length
  · intro hcond
    have hacc : lengthAccepted fmt arr.length = false := by
      rcases h : lengthAccepted fmt arr.length with _ | _
      · rfl
      · exact absurd ((lengthAccepted_iff fmt arr.length).mp h) hcond
    simp [initializeFromArray, hacc]

/-- C6 witness: an `Oscar2013Extended` array of 20 columns (two missing
trailing columns) constructs successfully with baryon number and
strangeness unset. -/
theorem particle_array_length_validation_witness :
    (initializeFromArray testOps lookupInvalid .Oscar2013Extended
      (List.replicate 20 0)).isOk = true ∧
    (∃ p, initializeFromArray testOps lookupInvalid .Oscar2013Extended
        (List.replicate 20 0) = .ok p ∧
      p.baryon_number_ = none ∧ p.strangeness_ = none) := by
  have h := particle_array_length_validation testOps lookupInvalid
    .Oscar2013Extended (List.replicate 20 0)
  constructor
  · exact h.1.mpr (Or.inr ⟨Or.inl rfl, by simp [columnCount, attrMapping],
      by simp [columnCount, attrMapping]⟩)
  · have h4 := h.2.2.2 (Or.inl rfl) (by simp) (by simp)
    simpa using h4
